import Mathlib

/-!
Verification of the DevBox utility console (src/devbox.js).

The script is a browser overlay that logs form submissions, fetch calls,
cookies, session context and page info into an in-memory list mirrored to
`localStorage` under the key `__DEVBOX_LOGS`.  We embed the script's data
model and operations shallowly:

* JSON-serialisable values are `JVal`; the platform pair
  `JSON.stringify` / `JSON.parse` is modelled by the executable printer
  `printJ` and the fuel-indexed recursive-descent reader `parseVal`
  (wrapped as `jsonParse`).  `none` models a thrown `SyntaxError`.
  The model covers the whitespace-free fragment the printer emits, which
  is exactly what the script ever writes to storage.
* The mutable page state touched by the script (the `visible`,
  `blockRedirects` and `stopSubmit` flags, the two panes, the in-memory
  `logEntries` array and the storage key) is a record `DevBoxState`;
  every handler of the script becomes a state transformer.
-/

inductive JVal where
  | null : JVal
  | bool (b : Bool) : JVal
  | num (n : Int) : JVal
  | str (s : String) : JVal
  | arr (elems : List JVal) : JVal
  | obj (fields : List (String × JVal)) : JVal
deriving Repr

/-- Escape a character of a JSON string body: quote and backslash get a
backslash prefix, every other character is emitted verbatim. -/
def escapeChar (c : Char) : List Char :=
  if c = '"' ∨ c = '\\' then ['\\', c] else [c]

def escapeChars : List Char → List Char
  | [] => []
  | c :: cs => escapeChar c ++ escapeChars cs

/-- Printed form of a JSON string literal, quotes included. -/
def printString (s : String) : List Char :=
  '"' :: (escapeChars s.data ++ ['"'])

/-- Decimal digits of a natural number, most significant first. -/
def natChars (n : Nat) : List Char :=
  if n = 0 then ['0'] else (Nat.digits 10 n).reverse.map Nat.digitChar

def intChars (n : Int) : List Char :=
  if n < 0 then '-' :: natChars n.natAbs else natChars n.natAbs

mutual

/-- Model of `JSON.stringify` (compact form, no added whitespace). -/
def printJ : JVal → List Char
  | JVal.null => ['n', 'u', 'l', 'l']
  | JVal.bool true => ['t', 'r', 'u', 'e']
  | JVal.bool false => ['f', 'a', 'l', 's', 'e']
  | JVal.num n => intChars n
  | JVal.str s => printString s
  | JVal.arr es => '[' :: (printElems es ++ [']'])
  | JVal.obj fs => '\x7b' :: (printFields fs ++ ['\x7d'])

def printElems : List JVal → List Char
  | [] => []
  | [e] => printJ e
  | e :: es => printJ e ++ ',' :: printElems es

def printFields : List (String × JVal) → List Char
  | [] => []
  | [f] => printString f.1 ++ ':' :: printJ f.2
  | f :: fs => printString f.1 ++ ':' :: printJ f.2 ++ ',' :: printFields fs

end

mutual

/-- Fuel needed by the reader on the printed form of a value. -/
def jsize : JVal → Nat
  | JVal.null => 1
  | JVal.bool _ => 1
  | JVal.num _ => 1
  | JVal.str _ => 1
  | JVal.arr es => lsizeJ es + 1
  | JVal.obj fs => fsizeJ fs + 1

def lsizeJ : List JVal → Nat
  | [] => 1
  | e :: es => jsize e + lsizeJ es

def fsizeJ : List (String × JVal) → Nat
  | [] => 1
  | f :: fs => jsize f.2 + fsizeJ fs

end

theorem jsize_pos (v : JVal) : 1 ≤ jsize v := by
  cases v <;> simp [jsize]

theorem lsizeJ_pos (es : List JVal) : 1 ≤ lsizeJ es := by
  cases es with
  | nil => simp [lsizeJ]
  | cons e es => simp [lsizeJ]; have := jsize_pos e; omega

theorem fsizeJ_pos (fs : List (String × JVal)) : 1 ≤ fsizeJ fs := by
  cases fs with
  | nil => simp [fsizeJ]
  | cons f fs => simp [fsizeJ]; have := jsize_pos f.2; omega

/-- Body of a JSON string literal: consume characters up to the closing
quote, honouring backslash escapes for quote and backslash. -/
def parseStrBody : List Char → Option (List Char × List Char)
  | [] => none
  | c :: cs =>
    if c = '"' then some ([], cs)
    else if c = '\\' then
      match cs with
      | [] => none
      | c2 :: cs2 =>
        if c2 = '"' ∨ c2 = '\\' then
          (parseStrBody cs2).map (fun p => (c2 :: p.1, p.2))
        else none
    else (parseStrBody cs).map (fun p => (c :: p.1, p.2))

def digitVal (c : Char) : Nat := c.toNat - '0'.toNat

/-- Consume a maximal run of decimal digits, folding them onto `acc`. -/
def parseNatAux : List Char → Nat → Nat × List Char
  | [], acc => (acc, [])
  | c :: cs, acc =>
    if c.isDigit then parseNatAux cs (10 * acc + digitVal c) else (acc, c :: cs)

def parseIntChars : List Char → Option (Int × List Char)
  | [] => none
  | c :: cs =>
    if c = '-' then
      match cs with
      | [] => none
      | d :: ds =>
        if d.isDigit then
          let p := parseNatAux (d :: ds) 0
          some (-(p.1 : Int), p.2)
        else none
    else if c.isDigit then
      let p := parseNatAux (c :: cs) 0
      some ((p.1 : Int), p.2)
    else none

def expectChars : List Char → List Char → Option (List Char)
  | [], cs => some cs
  | _ :: _, [] => none
  | e :: es, c :: cs => if c = e then expectChars es cs else none

mutual

/-- Model of `JSON.parse` on one value: recursive descent with explicit
fuel; `none` models a thrown `SyntaxError`. -/
def parseVal : Nat → List Char → Option (JVal × List Char)
  | 0, _ => none
  | fuel + 1, cs =>
    match cs with
    | [] => none
    | c :: cs' =>
      if c = 'n' then (expectChars ['u', 'l', 'l'] cs').map (fun r => (JVal.null, r))
      else if c = 't' then (expectChars ['r', 'u', 'e'] cs').map (fun r => (JVal.bool true, r))
      else if c = 'f' then (expectChars ['a', 'l', 's', 'e'] cs').map (fun r => (JVal.bool false, r))
      else if c = '"' then (parseStrBody cs').map (fun p => (JVal.str (String.mk p.1), p.2))
      else if c = '[' then (parseElems fuel cs').map (fun p => (JVal.arr p.1, p.2))
      else if c = '\x7b' then (parseFields fuel cs').map (fun p => (JVal.obj p.1, p.2))
      else (parseIntChars (c :: cs')).map (fun p => (JVal.num p.1, p.2))

def parseElems : Nat → List Char → Option (List JVal × List Char)
  | 0, _ => none
  | fuel + 1, cs =>
    match cs with
    | [] => none
    | c :: cs' =>
      if c = ']' then some ([], cs')
      else
        match parseVal fuel (c :: cs') with
        | none => none
        | some (v, rest) =>
          match rest with
          | ',' :: more =>
            match parseElems fuel more with
            | none => none
            | some (es, r) => some (v :: es, r)
          | ']' :: more => some ([v], more)
          | _ => none

def parseFields : Nat → List Char → Option (List (String × JVal) × List Char)
  | 0, _ => none
  | fuel + 1, cs =>
    match cs with
    | [] => none
    | c :: cs' =>
      if c = '\x7d' then some ([], cs')
      else if c = '"' then
        match parseStrBody cs' with
        | none => none
        | some (k, rest1) =>
          match rest1 with
          | ':' :: rest2 =>
            match parseVal fuel rest2 with
            | none => none
            | some (v, rest3) =>
              match rest3 with
              | ',' :: more =>
                match parseFields fuel more with
                | none => none
                | some (fs, r) => some ((String.mk k, v) :: fs, r)
              | '\x7d' :: more => some ([(String.mk k, v)], more)
              | _ => none
          | _ => none
      else none

end

/-- Whole-input model of `JSON.parse`: the fuel `length + 1` always
suffices for any value the printer can emit (`jsize_le_print`). -/
def jsonParse (s : String) : Option JVal :=
  match parseVal (s.data.length + 1) s.data with
  | some (v, []) => some v
  | _ => none

/-! ## JavaScript helpers used by the script -/

/-- Truthiness of a JSON-like JavaScript value. -/
def jvalTruthy : JVal → Bool
  | JVal.null => false
  | JVal.bool b => b
  | JVal.num n => n != 0
  | JVal.str s => s != ""
  | JVal.arr _ => true
  | JVal.obj _ => true

/-- The `x || d` idiom on an optional string (`undefined`, `null` and the
empty string all fall back to the default). -/
def jsOr (x : Option String) (d : String) : String :=
  match x with
  | some s => if s = "" then d else s
  | none => d

/-- The `x || {}` idiom on an optional object-valued global. -/
def jsOrEmptyObj (x : Option JVal) : JVal :=
  match x with
  | some v => if jvalTruthy v then v else JVal.obj []
  | none => JVal.obj []

/-- Property assignment `m[k] = v` on a plain object: an existing key is
overwritten in place, a new key is appended (JS insertion order). -/
def jsObjSet (m : List (String × α)) (k : String) (v : α) : List (String × α) :=
  if m.any (fun p => p.1 == k) then
    m.map (fun p => if p.1 == k then (k, v) else p)
  else m ++ [(k, v)]

/-- Property lookup `m[k]` on a plain object. -/
def jsLookup (m : List (String × α)) (k : String) : Option α :=
  (m.find? (fun p => p.1 == k)).map (fun p => p.2)

/-- Model of `String.prototype.split` with a one-character separator
(the script only splits on `";"` and `"="`): empty segments are kept,
and the empty string yields one empty segment. -/
def splitChar (sep : Char) : List Char → List (List Char)
  | [] => [[]]
  | c :: cs =>
    if c = sep then [] :: splitChar sep cs
    else
      match splitChar sep cs with
      | [] => [[c]]
      | h :: t => (c :: h) :: t

def jsSplit (sep : Char) (s : String) : List String :=
  (splitChar sep s.data).map String.mk

/-- Whitespace stripped by `String.prototype.trim` (ASCII fragment). -/
def jsWs (c : Char) : Bool :=
  c = ' ' ∨ c = '\t' ∨ c = '\n' ∨ c = '\r'

def jsTrim (s : String) : String :=
  String.mk (((s.data.dropWhile jsWs).reverse.dropWhile jsWs).reverse)

def hexVal (c : Char) : Option Nat :=
  if '0' ≤ c ∧ c ≤ '9' then some (c.toNat - '0'.toNat)
  else if 'a' ≤ c ∧ c ≤ 'f' then some (c.toNat - 'a'.toNat + 10)
  else if 'A' ≤ c ∧ c ≤ 'F' then some (c.toNat - 'A'.toNat + 10)
  else none

def contByte (x : Nat) : Bool := 0x80 ≤ x ∧ x ≤ 0xBF

/-- The Decode algorithm behind the platform `decodeURIComponent`: a
percent escape must be two hex digits, escaped octets must form strictly
valid UTF-8 (no stray continuation, no overlong form, no surrogate, no
code point beyond U+10FFFF) and a multi-byte sequence yields one
character; every violation throws `URIError`, modelled by `none`.
Unescaped characters pass through verbatim. -/
def decodeChars : List Char → Option (List Char)
  | [] => some []
  | '%' :: cs =>
    match cs with
    | a :: b :: rest =>
      match hexVal a, hexVal b with
      | some x, some y =>
        let lead := 16 * x + y
        if lead < 0x80 then
          (decodeChars rest).map (fun t => Char.ofNat lead :: t)
        else if lead < 0xC0 then none
        else if lead < 0xE0 then
          match rest with
          | '%' :: a1 :: b1 :: rest1 =>
            match hexVal a1, hexVal b1 with
            | some x1, some y1 =>
              let c1 := 16 * x1 + y1
              let code := (lead - 0xC0) * 0x40 + (c1 - 0x80)
              if contByte c1 ∧ 0x80 ≤ code then
                (decodeChars rest1).map (fun t => Char.ofNat code :: t)
              else none
            | _, _ => none
          | _ => none
        else if lead < 0xF0 then
          match rest with
          | '%' :: a1 :: b1 :: '%' :: a2 :: b2 :: rest2 =>
            match hexVal a1, hexVal b1, hexVal a2, hexVal b2 with
            | some x1, some y1, some x2, some y2 =>
              let c1 := 16 * x1 + y1
              let c2 := 16 * x2 + y2
              let code := (lead - 0xE0) * 0x1000 + (c1 - 0x80) * 0x40 + (c2 - 0x80)
              if contByte c1 ∧ contByte c2 ∧ 0x800 ≤ code
                  ∧ (code < 0xD800 ∨ 0xDFFF < code) then
                (decodeChars rest2).map (fun t => Char.ofNat code :: t)
              else none
            | _, _, _, _ => none
          | _ => none
        else if lead < 0xF8 then
          match rest with
          | '%' :: a1 :: b1 :: '%' :: a2 :: b2 :: '%' :: a3 :: b3 :: rest3 =>
            match hexVal a1, hexVal b1, hexVal a2, hexVal b2, hexVal a3, hexVal b3 with
            | some x1, some y1, some x2, some y2, some x3, some y3 =>
              let c1 := 16 * x1 + y1
              let c2 := 16 * x2 + y2
              let c3 := 16 * x3 + y3
              let code := (lead - 0xF0) * 0x40000 + (c1 - 0x80) * 0x1000
                  + (c2 - 0x80) * 0x40 + (c3 - 0x80)
              if contByte c1 ∧ contByte c2 ∧ contByte c3
                  ∧ 0x10000 ≤ code ∧ code ≤ 0x10FFFF then
                (decodeChars rest3).map (fun t => Char.ofNat code :: t)
              else none
            | _, _, _, _, _, _ => none
          | _ => none
        else none
      | _, _ => none
    | _ => none
  | c :: cs => (decodeChars cs).map (fun t => c :: t)

/-- Model of the platform `decodeURIComponent`: `none` models a thrown
`URIError`. -/
def decodeURIComponent (s : String) : Option String :=
  (decodeChars s.data).map String.mk

/-! ## The log store (src/devbox.js lines 117-136, 199-230) -/

/-- The sole persisted entity: `\x7b title: label, obj \x7d` (line 134). -/
structure LogEntry where
  title : String
  obj : JVal

def entryToJVal (e : LogEntry) : JVal :=
  JVal.obj [("title", JVal.str e.title), ("obj", e.obj)]

def jvalToEntry : JVal → Option LogEntry
  | JVal.obj (("title", JVal.str t) :: ("obj", o) :: []) => some ⟨t, o⟩
  | _ => none

/-- `JSON.stringify(logEntries)` (line 135). -/
def entriesJson (l : List LogEntry) : String :=
  String.mk (printJ (JVal.arr (l.map entryToJVal)))

/-- Line 117: `JSON.parse(localStorage.getItem("__DEVBOX_LOGS") || "[]")`.
`none` in, models an absent key; `none` out, a thrown `SyntaxError`. -/
def load117 (stored : Option String) : Option JVal :=
  jsonParse (jsOr stored "[]")

/-- Typed view of the loaded sequence: an array of well-formed entry
objects, exactly what the script itself persists. -/
def loadEntries (stored : Option String) : Option (List LogEntry) :=
  match load117 stored with
  | some (JVal.arr xs) => xs.mapM jvalToEntry
  | _ => none

/-- The page state the script reads and writes. -/
structure DevBoxState where
  visible : Bool
  blockRedirects : Bool
  stopSubmit : Bool
  display : String
  sidebar : List String
  mainView : String
  logEntries : List LogEntry
  storage : Option String

/-- `addLogEntry` (lines 119-136): prepend the labelled item to the list
pane, push onto the in-memory array, re-serialise the whole array into
the storage key.  `ts` stands for `new Date().toLocaleTimeString()`. -/
def addLogEntry (ts title : String) (obj : JVal) (s : DevBoxState) : DevBoxState :=
  let label := "[" ++ ts ++ "] " ++ title
  let entries := s.logEntries ++ [⟨label, obj⟩]
  { s with
    sidebar := label :: s.sidebar
    logEntries := entries
    storage := some (entriesJson entries) }

/-- `clearBtn.onclick` (lines 107-111): empties both panes and removes
the storage key; the in-memory `logEntries` array is left untouched. -/
def clearBtnOnClick (s : DevBoxState) : DevBoxState :=
  { s with sidebar := [], mainView := "", storage := none }

/-- `DevBox.open` (lines 212-215). -/
def devBoxOpen (s : DevBoxState) : DevBoxState :=
  { s with visible := true, display := "flex" }

/-- `DevBox.close` (lines 216-219). -/
def devBoxClose (s : DevBoxState) : DevBoxState :=
  { s with visible := false, display := "none" }

/-- `DevBox.toggle` (lines 220-223). -/
def devBoxToggle (s : DevBoxState) : DevBoxState :=
  let v := !s.visible
  { s with visible := v, display := if v then "flex" else "none" }

/-- `devBoxTab.onclick` (lines 69-72): same body as `toggle`. -/
def devBoxTabOnClick (s : DevBoxState) : DevBoxState :=
  let v := !s.visible
  { s with visible := v, display := if v then "flex" else "none" }

/-- `DevBox.isOpen` (line 224). -/
def devBoxIsOpen (s : DevBoxState) : Bool := s.visible

/-- `DevBox.clear` (lines 225-230). -/
def devBoxClear (s : DevBoxState) : DevBoxState :=
  { s with sidebar := [], mainView := "", logEntries := [], storage := none }

/-- `DevBox.setBlockRedirects` (lines 231-233): `blockRedirects = !!val`. -/
def devBoxSetBlockRedirects (val : JVal) (s : DevBoxState) : DevBoxState :=
  { s with blockRedirects := jvalTruthy val }

/-! ## Interceptors and static captures (lines 152-209) -/

/-- A form reached by a submission event: its fields in form-data
iteration order, and its resolved `action` (the empty string when the
attribute resolves falsy). -/
structure FormTarget where
  fields : List (String × String)
  action : String

/-- The `for (const [k, v] of fd.entries()) formData[k] = v` loop
(lines 158-161). -/
def buildFormMap (fields : List (String × String)) : List (String × String) :=
  List.foldl (fun m p => jsObjSet m p.1 p.2) [] fields

/-- The capturing-phase `submit` listener (lines 152-169).  `target` is
`none` when the event target is not a form element.  The returned flag
records whether `e.preventDefault()` ran. -/
def submitListener (ts : String) (target : Option FormTarget) (pathname : String)
    (s : DevBoxState) : DevBoxState × Bool :=
  match target with
  | some form =>
    if s.stopSubmit then
      let formData := buildFormMap form.fields
      let payload := JVal.obj (formData.map (fun p => (p.1, JVal.str p.2)))
      (addLogEntry ts ("[FORM SUBMIT] " ++ (if form.action = "" then pathname else form.action))
        payload s, true)
    else (s, false)
  | none => (s, false)

/-- A fetch request body: a string, or any other JavaScript value. -/
inductive BodyVal where
  | str (s : String) : BodyVal
  | val (v : JVal) : BodyVal

def bodyTruthy : BodyVal → Bool
  | BodyVal.str s => s != ""
  | BodyVal.val v => jvalTruthy v

/-- `typeof body === "string" ? JSON.parse(body) : body`, with the raw
value kept on parse failure (lines 177-183). -/
def bodyToJVal : BodyVal → JVal
  | BodyVal.str s => (jsonParse s).getD (JVal.str s)
  | BodyVal.val v => v

structure FetchOpts where
  method : Option String
  body : Option BodyVal

/-- The response object produced by the original fetch.  `textRead` is
the outcome of reading the duplicated stream as text (`none` models a
read failure, swallowed at line 189). -/
structure JsResponse where
  textRead : Option String

/-- The `window.fetch` wrapper (lines 171-197).  `origFetch` stands for
the captured original function; the wrapper logs one entry and returns
the original response object. -/
def wrappedFetch (origFetch : String → Option FetchOpts → JsResponse)
    (ts : String) (url : String) (opts : Option FetchOpts)
    (s : DevBoxState) : DevBoxState × JsResponse :=
  let method := jsOr (opts.bind FetchOpts.method) "GET"
  let body := opts.bind FetchOpts.body
  let baseFields := [("method", JVal.str method), ("url", JVal.str url)]
  let fieldsWithBody :=
    match body with
    | some b => if bodyTruthy b then baseFields ++ [("body", bodyToJVal b)] else baseFields
    | none => baseFields
  let resp := origFetch url opts
  let respText := resp.textRead.getD ""
  let responseJ := (jsonParse respText).getD (JVal.str respText)
  let entry := JVal.obj (fieldsWithBody ++ [("response", responseJ)])
  (addLogEntry ts ("[" ++ method ++ "] " ++ url) entry s, resp)

/-- One step of the cookie reduce (lines 203-207): a thrown `URIError`
from `decodeURIComponent` propagates (`none`) and aborts the whole
capture; an already-thrown state stays thrown. -/
def cookieStep (acc : Option (List (String × String))) (c : String) :
    Option (List (String × String)) :=
  match acc with
  | none => none
  | some m =>
    match jsSplit '=' c with
    | k :: v :: _ =>
      if k ≠ "" ∧ v ≠ "" then
        match decodeURIComponent v with
        | some dv => some (jsObjSet m (jsTrim k) dv)
        | none => none
      else some m
    | _ => some m

/-- `document.cookie.split(";").reduce(...)` (lines 203-207); `none`
models the reduce throwing `URIError` on a fragment whose value does not
percent-decode. -/
def parseCookies (cookie : String) : Option (List (String × String)) :=
  List.foldl cookieStep (some []) (jsSplit ';' cookie)

/-- The page environment the script reads at initialization.  The three
`get`, `post` and `file` globals are part of the documented server-side
integration; the script under verification only ever reads `session`. -/
structure PageEnv where
  session : Option JVal
  getParams : Option JVal
  postParams : Option JVal
  file : Option String
  cookie : String
  pathname : String

/-- The three static captures (lines 199-209).  The cookie payload is
built before the `[COOKIES]` append; if its construction throws
`URIError`, the exception escapes with only the `[SESSION]` entry
appended — `Except.error` carries that partial state. -/
def staticCaptures (ts1 ts2 ts3 : String) (env : PageEnv) (s : DevBoxState) :
    Except DevBoxState DevBoxState :=
  let s1 := addLogEntry ts1 "[SESSION]" (jsOrEmptyObj env.session) s
  match parseCookies env.cookie with
  | none => Except.error s1
  | some m =>
    let s2 := addLogEntry ts2 "[COOKIES]"
      (JVal.obj (m.map (fun p => (p.1, JVal.str p.2)))) s1
    Except.ok (addLogEntry ts3 "[PAGE]" (JVal.obj [("pathname", JVal.str env.pathname)]) s2)

/-- One full initialization of the script: read the persisted sequence
(line 117, `none` here models the init aborting on a parse error before
any state exists), render the restored entries into the list pane
(lines 138-150), then perform the three static captures —
`some (Except.error s)` models a `URIError` escaping mid-capture with
partial state `s`. -/
def initDevBox (ts1 ts2 ts3 : String) (env : PageEnv) (stored : Option String) :
    Option (Except DevBoxState DevBoxState) :=
  match loadEntries stored with
  | none => none
  | some loaded =>
    let s0 : DevBoxState :=
      { visible := false
        blockRedirects := false
        stopSubmit := true
        display := "none"
        sidebar := loaded.map LogEntry.title
        mainView := ""
        logEntries := loaded
        storage := stored }
    some (staticCaptures ts1 ts2 ts3 env s0)

/-! ## Round-trip of the serialisation boundary -/

/-- The continuation is allowed after a printed number: it must not start
with another digit. -/
def restOk : List Char → Bool
  | [] => true
  | c :: _ => !c.isDigit

theorem digitChar_isDigit : ∀ d : Nat, d < 10 → (Nat.digitChar d).isDigit = true := by decide

theorem digitChar_digitVal : ∀ d : Nat, d < 10 → digitVal (Nat.digitChar d) = d := by decide

theorem natChars_all_digit (m : Nat) : ∀ c ∈ natChars m, c.isDigit = true := by
  intro c hc
  unfold natChars at hc
  by_cases hm : m = 0
  · simp [hm] at hc
    simp [hc]
  · simp [hm] at hc
    obtain ⟨d, hd, rfl⟩ := hc
    exact digitChar_isDigit d (Nat.digits_lt_base (by norm_num) hd)

theorem natChars_ne_nil (m : Nat) : natChars m ≠ [] := by
  unfold natChars
  by_cases hm : m = 0
  · simp [hm]
  · simp [hm, Nat.digits_ne_nil_iff_ne_zero]

theorem natChars_head (m : Nat) :
    ∃ c cs, natChars m = c :: cs ∧ c.isDigit = true := by
  cases h : natChars m with
  | nil => exact absurd h (natChars_ne_nil m)
  | cons c cs =>
    exact ⟨c, cs, rfl, natChars_all_digit m c (by simp [h])⟩

theorem digit_ne {c d : Char} (hc : c.isDigit = true) (hd : d.isDigit = false) : c ≠ d := by
  intro he
  rw [he, hd] at hc
  cases hc

theorem parseNatAux_digits (D : List Nat) (hD : ∀ d ∈ D, d < 10) (rest : List Char)
    (hrest : restOk rest = true) (acc : Nat) :
    parseNatAux (D.map Nat.digitChar ++ rest) acc =
      (List.foldl (fun a d => 10 * a + d) acc D, rest) := by
  induction D generalizing acc with
  | nil =>
    simp only [List.map_nil, List.nil_append, List.foldl_nil]
    cases rest with
    | nil => rfl
    | cons c cs =>
      have hc : c.isDigit = false := by
        simp [restOk] at hrest
        exact hrest
      simp [parseNatAux, hc]
  | cons d D ih =>
    have hd : d < 10 := hD d (by simp)
    simp only [List.map_cons, List.cons_append, List.foldl_cons]
    rw [parseNatAux, if_pos (digitChar_isDigit d hd), digitChar_digitVal d hd]
    exact ih (fun x hx => hD x (by simp [hx])) _

theorem foldTen_reverse (L : List Nat) (acc : Nat) :
    List.foldl (fun a d => 10 * a + d) acc L.reverse =
      acc * 10 ^ L.length + Nat.ofDigits 10 L := by
  induction L generalizing acc with
  | nil => simp
  | cons x xs ih =>
    simp only [List.reverse_cons, List.foldl_append, List.foldl_cons, List.foldl_nil, ih,
      List.length_cons, Nat.ofDigits_cons]
    ring

theorem parseNatAux_natChars (n : Nat) (rest : List Char) (hrest : restOk rest = true) :
    parseNatAux (natChars n ++ rest) 0 = (n, rest) := by
  have hnil : parseNatAux rest 0 = (0, rest) := by
    simpa using parseNatAux_digits [] (by simp) rest hrest 0
  unfold natChars
  by_cases hn : n = 0
  · subst hn
    rw [if_pos rfl]
    rw [show (['0'] ++ rest : List Char) = '0' :: rest from rfl]
    rw [parseNatAux, if_pos (by decide)]
    rw [show (10 * 0 + digitVal '0') = 0 from by decide]
    exact hnil
  · rw [if_neg hn]
    rw [parseNatAux_digits ((Nat.digits 10 n).reverse)
      (fun d hd => Nat.digits_lt_base (by norm_num) (List.mem_reverse.mp hd)) rest hrest 0]
    rw [foldTen_reverse]
    simp [Nat.ofDigits_digits]

theorem stringMk_data (s : String) : String.mk s.data = s := by
  cases s
  rfl

theorem parseIntChars_intChars (n : Int) (rest : List Char) (hrest : restOk rest = true) :
    parseIntChars (intChars n ++ rest) = some (n, rest) := by
  obtain ⟨c, cs, hc, hdig⟩ := natChars_head n.natAbs
  have hnat : natChars n.natAbs ++ rest = c :: (cs ++ rest) := by
    rw [hc]
    rfl
  have hp : parseNatAux (c :: (cs ++ rest)) 0 = (n.natAbs, rest) := by
    rw [← hnat]
    exact parseNatAux_natChars n.natAbs rest hrest
  unfold intChars
  by_cases hn : n < 0
  · rw [if_pos hn]
    rw [show ('-' :: natChars n.natAbs) ++ rest = '-' :: (natChars n.natAbs ++ rest) from rfl]
    rw [hnat, parseIntChars.eq_def]
    simp [hdig, hp]
    rw [abs_of_neg hn, neg_neg]
  · rw [if_neg hn]
    have hcne : c ≠ '-' := digit_ne hdig (by decide)
    rw [hnat, parseIntChars.eq_def]
    simp [hcne, hdig, hp]
    exact not_lt.mp hn

theorem parseStrBody_escape (s : List Char) (rest : List Char) :
    parseStrBody (escapeChars s ++ '"' :: rest) = some (s, rest) := by
  induction s with
  | nil =>
    rw [show escapeChars [] ++ '"' :: rest = '"' :: rest from rfl, parseStrBody.eq_def]
    simp
  | cons c cs ih =>
    rw [show escapeChars (c :: cs) = escapeChar c ++ escapeChars cs from rfl]
    unfold escapeChar
    by_cases hc : c = '"' ∨ c = '\\'
    · rw [if_pos hc]
      rw [show (['\\', c] ++ escapeChars cs) ++ '"' :: rest
          = '\\' :: c :: (escapeChars cs ++ '"' :: rest) from by simp]
      rw [parseStrBody.eq_def]
      simp [hc, ih]
    · rw [if_neg hc]
      push_neg at hc
      rw [show ([c] ++ escapeChars cs) ++ '"' :: rest
          = c :: (escapeChars cs ++ '"' :: rest) from by simp]
      rw [parseStrBody.eq_def]
      simp [hc.1, hc.2, ih]

theorem intChars_head (n : Int) :
    ∃ c cs, intChars n = c :: cs ∧ (c = '-' ∨ c.isDigit = true) := by
  unfold intChars
  by_cases hn : n < 0
  · exact ⟨'-', natChars n.natAbs, by rw [if_pos hn], Or.inl rfl⟩
  · obtain ⟨c, cs, hc, hdig⟩ := natChars_head n.natAbs
    exact ⟨c, cs, by rw [if_neg hn, hc], Or.inr hdig⟩

theorem numHead_ne {c : Char} (hc : c = '-' ∨ c.isDigit = true) :
    c ≠ 'n' ∧ c ≠ 't' ∧ c ≠ 'f' ∧ c ≠ '"' ∧ c ≠ '[' ∧ c ≠ '\x7b' := by
  rcases hc with rfl | hdig
  · exact ⟨by decide, by decide, by decide, by decide, by decide, by decide⟩
  · exact ⟨digit_ne hdig (by decide), digit_ne hdig (by decide), digit_ne hdig (by decide),
      digit_ne hdig (by decide), digit_ne hdig (by decide), digit_ne hdig (by decide)⟩

theorem printJ_cons (v : JVal) : ∃ c cs, printJ v = c :: cs ∧ c ≠ ']' := by
  cases v with
  | null => exact ⟨'n', ['u', 'l', 'l'], rfl, by decide⟩
  | bool b =>
    cases b
    · exact ⟨'f', ['a', 'l', 's', 'e'], rfl, by decide⟩
    · exact ⟨'t', ['r', 'u', 'e'], rfl, by decide⟩
  | num n =>
    obtain ⟨c, cs, hic, hcd⟩ := intChars_head n
    refine ⟨c, cs, hic, ?_⟩
    rcases hcd with rfl | hdig
    · decide
    · exact digit_ne hdig (by decide)
  | str s => exact ⟨'"', escapeChars s.data ++ ['"'], rfl, by decide⟩
  | arr es => exact ⟨'[', printElems es ++ [']'], rfl, by decide⟩
  | obj fs => exact ⟨'\x7b', printFields fs ++ ['\x7d'], rfl, by decide⟩

theorem restOk_cons (c : Char) (xs : List Char) (h : c.isDigit = false) :
    restOk (c :: xs) = true := by
  simp [restOk, h]

theorem parse_print_all (N : Nat) :
    (∀ v : JVal, jsize v ≤ N → ∀ fuel rest, jsize v ≤ fuel → restOk rest = true →
      parseVal fuel (printJ v ++ rest) = some (v, rest)) ∧
    (∀ es : List JVal, lsizeJ es ≤ N → ∀ fuel rest, lsizeJ es ≤ fuel →
      parseElems fuel (printElems es ++ ']' :: rest) = some (es, rest)) ∧
    (∀ fs : List (String × JVal), fsizeJ fs ≤ N → ∀ fuel rest, fsizeJ fs ≤ fuel →
      parseFields fuel (printFields fs ++ '\x7d' :: rest) = some (fs, rest)) := by
  induction N with
  | zero =>
    refine ⟨fun v hv => absurd hv (by have := jsize_pos v; omega),
            fun es hes => absurd hes (by have := lsizeJ_pos es; omega),
            fun fs hfs => absurd hfs (by have := fsizeJ_pos fs; omega)⟩
  | succ N ih =>
    obtain ⟨ihV, ihE, ihF⟩ := ih
    refine ⟨?_, ?_, ?_⟩
    · intro v hvN fuel rest hf hr
      obtain ⟨f, rfl⟩ : ∃ f, fuel = f + 1 := by
        have := jsize_pos v
        exact ⟨fuel - 1, by omega⟩
      cases v with
      | null =>
        rw [show printJ JVal.null ++ rest = 'n' :: 'u' :: 'l' :: 'l' :: rest from rfl]
        rw [parseVal.eq_def]
        simp [expectChars]
      | bool b =>
        cases b
        · rw [show printJ (JVal.bool false) ++ rest
              = 'f' :: 'a' :: 'l' :: 's' :: 'e' :: rest from rfl]
          rw [parseVal.eq_def]
          simp [expectChars]
        · rw [show printJ (JVal.bool true) ++ rest = 't' :: 'r' :: 'u' :: 'e' :: rest from rfl]
          rw [parseVal.eq_def]
          simp [expectChars]
      | num n =>
        obtain ⟨c, cs, hic, hcd⟩ := intChars_head n
        obtain ⟨h1, h2, h3, h4, h5, h6⟩ := numHead_ne hcd
        have hin : printJ (JVal.num n) ++ rest = c :: (cs ++ rest) := by
          rw [show printJ (JVal.num n) = intChars n from rfl, hic]
          rfl
        have hback : c :: (cs ++ rest) = intChars n ++ rest := by
          rw [hic]
          rfl
        rw [hin, parseVal.eq_def]
        simp [h1, h2, h3, h4, h5, h6, hback, parseIntChars_intChars n rest hr]
      | str s =>
        have hin : printJ (JVal.str s) ++ rest = '"' :: (escapeChars s.data ++ '"' :: rest) := by
          rw [show printJ (JVal.str s) = '"' :: (escapeChars s.data ++ ['"']) from rfl]
          simp
        rw [hin, parseVal.eq_def]
        simp [parseStrBody_escape s.data rest, stringMk_data]
      | arr es =>
        rw [show jsize (JVal.arr es) = lsizeJ es + 1 from rfl] at hvN hf
        have hin : printJ (JVal.arr es) ++ rest = '[' :: (printElems es ++ ']' :: rest) := by
          rw [show printJ (JVal.arr es) = '[' :: (printElems es ++ [']']) from rfl]
          simp
        rw [hin, parseVal.eq_def]
        simp [ihE es (by omega) f rest (by omega)]
      | obj fs =>
        rw [show jsize (JVal.obj fs) = fsizeJ fs + 1 from rfl] at hvN hf
        have hin : printJ (JVal.obj fs) ++ rest = '\x7b' :: (printFields fs ++ '\x7d' :: rest) := by
          rw [show printJ (JVal.obj fs) = '\x7b' :: (printFields fs ++ ['\x7d']) from rfl]
          simp
        rw [hin, parseVal.eq_def]
        simp [ihF fs (by omega) f rest (by omega)]
    · intro es hesN fuel rest hf
      obtain ⟨f, rfl⟩ : ∃ f, fuel = f + 1 := by
        have := lsizeJ_pos es
        exact ⟨fuel - 1, by omega⟩
      match es with
      | [] =>
        rw [show printElems [] ++ ']' :: rest = ']' :: rest from rfl, parseElems.eq_def]
        simp
      | [e] =>
        rw [show lsizeJ [e] = jsize e + 1 from rfl] at hesN hf
        obtain ⟨c, cs, hpc, hne⟩ := printJ_cons e
        have hin : printElems [e] ++ ']' :: rest = c :: (cs ++ ']' :: rest) := by
          rw [show printElems [e] = printJ e from rfl, hpc]
          rfl
        have hback : c :: (cs ++ ']' :: rest) = printJ e ++ ']' :: rest := by
          rw [hpc]
          rfl
        rw [hin, parseElems.eq_def]
        simp [hne, hback, ihV e (by omega) f (']' :: rest) (by omega)
          (restOk_cons _ _ (by decide))]
      | e :: e' :: es =>
        rw [show lsizeJ (e :: e' :: es) = jsize e + lsizeJ (e' :: es) from rfl] at hesN hf
        have hjp := jsize_pos e
        have hlp := lsizeJ_pos (e' :: es)
        obtain ⟨c, cs, hpc, hne⟩ := printJ_cons e
        have hin : printElems (e :: e' :: es) ++ ']' :: rest
            = c :: (cs ++ (',' :: (printElems (e' :: es) ++ ']' :: rest))) := by
          rw [show printElems (e :: e' :: es)
              = printJ e ++ ',' :: printElems (e' :: es) from rfl, hpc]
          simp
        have hback : c :: (cs ++ (',' :: (printElems (e' :: es) ++ ']' :: rest)))
            = printJ e ++ ',' :: (printElems (e' :: es) ++ ']' :: rest) := by
          rw [hpc]
          rfl
        rw [hin, parseElems.eq_def]
        simp [hne, hback,
          ihV e (by omega) f (',' :: (printElems (e' :: es) ++ ']' :: rest)) (by omega)
            (restOk_cons _ _ (by decide)),
          ihE (e' :: es) (by omega) f rest (by omega)]
    · intro fs hfsN fuel rest hf
      obtain ⟨f, rfl⟩ : ∃ f, fuel = f + 1 := by
        have := fsizeJ_pos fs
        exact ⟨fuel - 1, by omega⟩
      match fs with
      | [] =>
        rw [show printFields [] ++ '\x7d' :: rest = '\x7d' :: rest from rfl, parseFields.eq_def]
        simp
      | [(k, v)] =>
        rw [show fsizeJ [(k, v)] = jsize v + 1 from rfl] at hfsN hf
        have hin : printFields [(k, v)] ++ '\x7d' :: rest
            = '"' :: (escapeChars k.data ++ '"' :: (':' :: (printJ v ++ '\x7d' :: rest))) := by
          rw [show printFields [(k, v)] = printString k ++ ':' :: printJ v from rfl]
          rw [show printString k = '"' :: (escapeChars k.data ++ ['"']) from rfl]
          simp
        rw [hin, parseFields.eq_def]
        simp [parseStrBody_escape k.data,
          ihV v (by omega) f ('\x7d' :: rest) (by omega) (restOk_cons _ _ (by decide)),
          stringMk_data]
      | (k, v) :: f2 :: fs =>
        rw [show fsizeJ ((k, v) :: f2 :: fs) = jsize v + fsizeJ (f2 :: fs) from rfl] at hfsN hf
        have hjp := jsize_pos v
        have hfp := fsizeJ_pos (f2 :: fs)
        have hin : printFields ((k, v) :: f2 :: fs) ++ '\x7d' :: rest
            = '"' :: (escapeChars k.data
                ++ '"' :: (':' :: (printJ v ++ ',' :: (printFields (f2 :: fs) ++ '\x7d' :: rest)))) := by
          rw [show printFields ((k, v) :: f2 :: fs)
              = printString k ++ ':' :: printJ v ++ ',' :: printFields (f2 :: fs) from rfl]
          rw [show printString k = '"' :: (escapeChars k.data ++ ['"']) from rfl]
          simp
        rw [hin, parseFields.eq_def]
        simp [parseStrBody_escape k.data,
          ihV v (by omega) f (',' :: (printFields (f2 :: fs) ++ '\x7d' :: rest)) (by omega)
            (restOk_cons _ _ (by decide)),
          ihF (f2 :: fs) (by omega) f rest (by omega), stringMk_data]

theorem jsize_le_print_all (M : Nat) :
    (∀ v : JVal, jsize v ≤ M → jsize v ≤ (printJ v).length) ∧
    (∀ es : List JVal, lsizeJ es ≤ M → lsizeJ es ≤ (printElems es).length + 1) ∧
    (∀ fs : List (String × JVal), fsizeJ fs ≤ M → fsizeJ fs ≤ (printFields fs).length + 1) := by
  induction M with
  | zero =>
    refine ⟨fun v hv => absurd hv (by have := jsize_pos v; omega),
            fun es hes => absurd hes (by have := lsizeJ_pos es; omega),
            fun fs hfs => absurd hfs (by have := fsizeJ_pos fs; omega)⟩
  | succ M ih =>
    obtain ⟨ihV, ihE, ihF⟩ := ih
    refine ⟨?_, ?_, ?_⟩
    · intro v hvM
      cases v with
      | null => simp [jsize, printJ]
      | bool b => cases b <;> simp [jsize, printJ]
      | num n =>
        obtain ⟨c, cs, hic, _⟩ := intChars_head n
        rw [show jsize (JVal.num n) = 1 from rfl, show printJ (JVal.num n) = intChars n from rfl,
          hic]
        simp
      | str s =>
        rw [show jsize (JVal.str s) = 1 from rfl,
          show printJ (JVal.str s) = '"' :: (escapeChars s.data ++ ['"']) from rfl]
        simp
      | arr es =>
        rw [show jsize (JVal.arr es) = lsizeJ es + 1 from rfl] at hvM ⊢
        rw [show printJ (JVal.arr es) = '[' :: (printElems es ++ [']']) from rfl]
        have := ihE es (by omega)
        simp only [List.length_cons, List.length_append, List.length_singleton]
        omega
      | obj fs =>
        rw [show jsize (JVal.obj fs) = fsizeJ fs + 1 from rfl] at hvM ⊢
        rw [show printJ (JVal.obj fs) = '\x7b' :: (printFields fs ++ ['\x7d']) from rfl]
        have := ihF fs (by omega)
        simp only [List.length_cons, List.length_append, List.length_singleton]
        omega
    · intro es hesM
      match es with
      | [] => simp [lsizeJ, printElems]
      | [e] =>
        rw [show lsizeJ [e] = jsize e + 1 from rfl] at hesM ⊢
        rw [show printElems [e] = printJ e from rfl]
        have := ihV e (by omega)
        omega
      | e :: e' :: es =>
        rw [show lsizeJ (e :: e' :: es) = jsize e + lsizeJ (e' :: es) from rfl] at hesM ⊢
        rw [show printElems (e :: e' :: es) = printJ e ++ ',' :: printElems (e' :: es) from rfl]
        have h1 := ihV e (by have := lsizeJ_pos (e' :: es); omega)
        have h2 := ihE (e' :: es) (by have := jsize_pos e; omega)
        simp only [List.length_append, List.length_cons]
        omega
    · intro fs hfsM
      match fs with
      | [] => simp [fsizeJ, printFields]
      | [(k, v)] =>
        rw [show fsizeJ [(k, v)] = jsize v + 1 from rfl] at hfsM ⊢
        rw [show printFields [(k, v)] = printString k ++ ':' :: printJ v from rfl]
        have := ihV v (by omega)
        simp only [List.length_append, List.length_cons]
        omega
      | (k, v) :: f2 :: fs =>
        rw [show fsizeJ ((k, v) :: f2 :: fs) = jsize v + fsizeJ (f2 :: fs) from rfl] at hfsM ⊢
        rw [show printFields ((k, v) :: f2 :: fs)
            = printString k ++ ':' :: printJ v ++ ',' :: printFields (f2 :: fs) from rfl]
        have h1 := ihV v (by have := fsizeJ_pos (f2 :: fs); omega)
        have h2 := ihF (f2 :: fs) (by have := jsize_pos v; omega)
        simp only [List.length_append, List.length_cons]
        omega

theorem jsize_le_print (v : JVal) : jsize v ≤ (printJ v).length :=
  (jsize_le_print_all (jsize v)).1 v le_rfl

/-- The serialisation boundary round-trips: reading back a printed value
recovers it exactly. -/
theorem jsonParse_print (v : JVal) : jsonParse (String.mk (printJ v)) = some v := by
  unfold jsonParse
  rw [show (String.mk (printJ v)).data = printJ v from rfl]
  have h := (parse_print_all (jsize v)).1 v le_rfl ((printJ v).length + 1) []
    (by have := jsize_le_print v; omega) rfl
  rw [List.append_nil] at h
  rw [h]

theorem jvalToEntry_entryToJVal (e : LogEntry) : jvalToEntry (entryToJVal e) = some e := by
  cases e
  rfl

theorem mapM_entries (l : List LogEntry) :
    (l.map entryToJVal).mapM jvalToEntry = some l := by
  induction l with
  | nil => rfl
  | cons e l ih =>
    rw [List.map_cons, List.mapM_cons, jvalToEntry_entryToJVal, ih]
    rfl

theorem entriesJson_ne_empty (l : List LogEntry) : entriesJson l ≠ "" := by
  intro h
  have hd := congrArg String.data h
  rw [show (entriesJson l).data = '[' :: (printElems (l.map entryToJVal) ++ [']']) from rfl] at hd
  cases hd

/-- Loading what `addLogEntry` persisted recovers the in-memory array. -/
theorem loadEntries_entriesJson (l : List LogEntry) :
    loadEntries (some (entriesJson l)) = some l := by
  unfold loadEntries load117
  rw [show jsOr (some (entriesJson l)) "[]" = entriesJson l from by
    simp [jsOr, entriesJson_ne_empty l]]
  rw [show entriesJson l = String.mk (printJ (JVal.arr (l.map entryToJVal))) from rfl]
  rw [jsonParse_print]
  exact mapM_entries l

theorem loadEntries_none : loadEntries none = some [] := by rfl

/-! ## Last-write-wins algebra of JavaScript object assignment -/

theorem find_set_same {α : Type} (m : List (String × α)) (k : String) (v : α) :
    (m.map (fun p => if p.1 == k then (k, v) else p)).find? (fun p => p.1 == k)
      = if m.any (fun p => p.1 == k) then some (k, v) else none := by
  induction m with
  | nil => simp
  | cons p m ih =>
    simp only [List.map_cons, List.any_cons]
    by_cases h : p.1 = k
    · have hb : (p.1 == k) = true := by simp [h]
      rw [if_pos hb, List.find?_cons_of_pos _ (by simp)]
      simp [hb]
    · have hb : (p.1 == k) = false := by simp [h]
      rw [if_neg (by simp [hb]), List.find?_cons_of_neg _ (by simp [hb]), ih]
      have hcond : (p.1 == k || m.any fun p => p.1 == k) = (m.any fun p => p.1 == k) := by
        rw [hb, Bool.false_or]
      simp only [hcond]

theorem find_set_other {α : Type} (m : List (String × α)) (k k' : String) (v : α)
    (hkk : k' ≠ k) :
    (m.map (fun p => if p.1 == k then (k, v) else p)).find? (fun p => p.1 == k')
      = m.find? (fun p => p.1 == k') := by
  have hb : (k == k') = false := beq_eq_false_iff_ne.mpr (Ne.symm hkk)
  induction m with
  | nil => simp
  | cons p m ih =>
    simp only [List.map_cons]
    by_cases h : p.1 = k
    · have hbk : (p.1 == k) = true := by simp [h]
      rw [if_pos hbk, List.find?_cons_of_neg _ (by simp [hb]),
        List.find?_cons_of_neg _ (by simp [h, hb])]
      exact ih
    · have hbk : (p.1 == k) = false := by simp [h]
      rw [if_neg (by simp [hbk])]
      by_cases h2 : p.1 = k'
      · have hb2 : (p.1 == k') = true := by simp [h2]
        rw [List.find?_cons_of_pos (a := p) _ (by simp [hb2]),
          List.find?_cons_of_pos (a := p) _ (by simp [hb2])]
      · have hb2 : (p.1 == k') = false := by simp [h2]
        rw [List.find?_cons_of_neg _ (by simp [hb2]), List.find?_cons_of_neg _ (by simp [hb2])]
        exact ih

theorem jsLookup_set {α : Type} (m : List (String × α)) (k k' : String) (v : α) :
    jsLookup (jsObjSet m k v) k' = if k' = k then some v else jsLookup m k' := by
  unfold jsObjSet jsLookup
  by_cases hmem : m.any (fun p => p.1 == k)
  · rw [if_pos hmem]
    by_cases hk : k' = k
    · subst hk
      rw [find_set_same, if_pos hmem, if_pos rfl]
      rfl
    · rw [find_set_other m k k' v hk, if_neg hk]
  · rw [if_neg hmem]
    by_cases hk : k' = k
    · subst hk
      have hnone : m.find? (fun p => p.1 == k') = none := by
        rw [List.find?_eq_none]
        intro x hx
        simp only [List.any_eq_true] at hmem
        push_neg at hmem
        simpa using hmem x hx
      rw [List.find?_append, hnone]
      simp [List.find?_cons]
    · have hb : (k == k') = false := beq_eq_false_iff_ne.mpr (Ne.symm hk)
      rw [List.find?_append]
      simp [List.find?_cons, hb, if_neg hk]

theorem lookup_foldl_set {α : Type} (fs : List (String × α)) (m : List (String × α))
    (k : String) :
    jsLookup (List.foldl (fun a p => jsObjSet a p.1 p.2) m fs) k =
      match fs.reverse.find? (fun p => p.1 == k) with
      | some p => some p.2
      | none => jsLookup m k := by
  induction fs generalizing m with
  | nil => simp
  | cons p fs ih =>
    rw [List.foldl_cons, ih, List.reverse_cons, List.find?_append]
    cases h : fs.reverse.find? (fun q => q.1 == k) with
    | some q => simp
    | none =>
      simp only [Option.none_or]
      rw [jsLookup_set]
      by_cases hk : k = p.1
      · rw [if_pos hk]
        simp [List.find?_cons, hk]
      · have hb : (p.1 == k) = false := beq_eq_false_iff_ne.mpr (fun he => hk he.symm)
        rw [if_neg hk]
        simp [List.find?_cons, hb]

/-- The form-data loop realises last-write-wins: looking up any key in the
built mapping returns the value of the last field with that name. -/
theorem buildFormMap_lookup (fields : List (String × String)) (k : String) :
    jsLookup (buildFormMap fields) k
      = (fields.reverse.find? (fun p => p.1 == k)).map (fun p => p.2) := by
  unfold buildFormMap
  rw [lookup_foldl_set]
  cases h : fields.reverse.find? (fun p => p.1 == k) <;> simp [jsLookup]

/-! ## Cookie capture, spec side -/

/-- Key/value extraction for one cookie fragment, as the spec describes
it: split at `=`, skip when key or value is missing, trim the key,
percent-decode the value. -/
def cookiePair (c : String) : Option (String × String) :=
  match jsSplit '=' c with
  | k :: v :: _ =>
    if k ≠ "" ∧ v ≠ "" then
      match decodeURIComponent v with
      | some dv => some (jsTrim k, dv)
      | none => none
    else none
  | _ => none

/-- All well-formed cookie pairs of a cookie string, in document order. -/
def cookiePairs (cookie : String) : List (String × String) :=
  (jsSplit ';' cookie).filterMap cookiePair

theorem foldl_cookieStep_none (l : List String) :
    List.foldl cookieStep none l = none := by
  induction l with
  | nil => rfl
  | cons c l ih =>
    rw [List.foldl_cons]
    exact ih

/-- When the reduce completes without a `URIError`, its result is the
plain object built by assigning the well-formed, decoded pairs in
order. -/
theorem parseCookies_sound (l : List String) (m m' : List (String × String))
    (h : List.foldl cookieStep (some m) l = some m') :
    m' = List.foldl (fun a p => jsObjSet a p.1 p.2) m (l.filterMap cookiePair) := by
  induction l generalizing m with
  | nil =>
    simp only [List.foldl_nil] at h
    cases h
    simp
  | cons c l ih =>
    rw [List.foldl_cons] at h
    rw [List.filterMap_cons]
    cases hsp : jsSplit '=' c with
    | nil =>
      rw [show cookieStep (some m) c = some m from by
        unfold cookieStep
        rw [hsp]] at h
      rw [show cookiePair c = none from by
        unfold cookiePair
        rw [hsp]]
      exact ih m h
    | cons k rest =>
      cases rest with
      | nil =>
        rw [show cookieStep (some m) c = some m from by
          unfold cookieStep
          rw [hsp]] at h
        rw [show cookiePair c = none from by
          unfold cookiePair
          rw [hsp]]
        exact ih m h
      | cons v more =>
        by_cases hkv : k ≠ "" ∧ v ≠ ""
        · cases hdec : decodeURIComponent v with
          | none =>
            rw [show cookieStep (some m) c = none from by
              unfold cookieStep
              rw [hsp]
              simp [hkv, hdec]] at h
            rw [foldl_cookieStep_none] at h
            cases h
          | some dv =>
            rw [show cookieStep (some m) c = some (jsObjSet m (jsTrim k) dv) from by
              unfold cookieStep
              rw [hsp]
              simp [hkv, hdec]] at h
            rw [show cookiePair c = some (jsTrim k, dv) from by
              unfold cookiePair
              rw [hsp]
              simp [hkv, hdec]]
            rw [List.foldl_cons]
            exact ih (jsObjSet m (jsTrim k) dv) h
        · rw [show cookieStep (some m) c = some m from by
            unfold cookieStep
            rw [hsp]
            simp [hkv]] at h
          rw [show cookiePair c = none from by
            unfold cookiePair
            rw [hsp]
            simp [hkv]]
          exact ih m h

/-! ## Claim-support material -/

/-- The control-surface state right after a fresh initialization with no
restored entries: hidden panel, interception on, empty panes and store. -/
def freshState : DevBoxState :=
  { visible := false
    blockRedirects := false
    stopSubmit := true
    display := "none"
    sidebar := []
    mainView := ""
    logEntries := []
    storage := none }

/-- The four ways the panel's visibility is driven. -/
inductive PanelOp where
  | doOpen : PanelOp
  | doClose : PanelOp
  | doToggle : PanelOp
  | doTabClick : PanelOp

def applyPanelOp (s : DevBoxState) : PanelOp → DevBoxState
  | PanelOp.doOpen => devBoxOpen s
  | PanelOp.doClose => devBoxClose s
  | PanelOp.doToggle => devBoxToggle s
  | PanelOp.doTabClick => devBoxTabOnClick s

def applyPanelOps (ops : List PanelOp) (s : DevBoxState) : DevBoxState :=
  List.foldl applyPanelOp s ops

/-- The visibility flag and the panel's display state agree. -/
def panelConsistent (s : DevBoxState) : Prop :=
  s.display = if s.visible then "flex" else "none"

theorem applyPanelOp_consistent (s : DevBoxState) (op : PanelOp) :
    panelConsistent (applyPanelOp s op) := by
  cases op <;>
    simp [applyPanelOp, panelConsistent, devBoxOpen, devBoxClose, devBoxToggle, devBoxTabOnClick]

theorem applyPanelOps_consistent (ops : List PanelOp) (s : DevBoxState)
    (h : panelConsistent s) : panelConsistent (applyPanelOps ops s) := by
  induction ops generalizing s with
  | nil => exact h
  | cons op ops ih => exact ih (applyPanelOp s op) (applyPanelOp_consistent s op)

/-- Appending a batch of events: the in-memory array extends by the
labelled entries and the storage invariant is maintained. -/
theorem foldl_addLog_inv (L : List (String × String × JVal)) (s : DevBoxState)
    (h : loadEntries s.storage = some s.logEntries) :
    loadEntries (List.foldl (fun s e => addLogEntry e.1 e.2.1 e.2.2 s) s L).storage
      = some (List.foldl (fun s e => addLogEntry e.1 e.2.1 e.2.2 s) s L).logEntries
    ∧ (List.foldl (fun s e => addLogEntry e.1 e.2.1 e.2.2 s) s L).logEntries
      = s.logEntries
        ++ L.map (fun e => ⟨"[" ++ e.1 ++ "] " ++ e.2.1, e.2.2⟩) := by
  induction L generalizing s with
  | nil => exact ⟨h, by simp⟩
  | cons e L ih =>
    have hstep : loadEntries (addLogEntry e.1 e.2.1 e.2.2 s).storage
        = some (addLogEntry e.1 e.2.1 e.2.2 s).logEntries := by
      rw [show (addLogEntry e.1 e.2.1 e.2.2 s).storage
          = some (entriesJson (addLogEntry e.1 e.2.1 e.2.2 s).logEntries) from rfl]
      exact loadEntries_entriesJson _
    obtain ⟨h1, h2⟩ := ih (addLogEntry e.1 e.2.1 e.2.2 s) hstep
    refine ⟨h1, ?_⟩
    rw [List.foldl_cons, h2]
    simp [addLogEntry]

/-- The payload object built by the fetch wrapper for one call, extracted
from `wrappedFetch` for use in the claim statements. -/
def fetchEntryFields (F : String → Option FetchOpts → JsResponse) (url : String)
    (opts : Option FetchOpts) : List (String × JVal) :=
  let method := jsOr (opts.bind FetchOpts.method) "GET"
  let baseFields := [("method", JVal.str method), ("url", JVal.str url)]
  let fieldsWithBody :=
    match opts.bind FetchOpts.body with
    | some b => if bodyTruthy b then baseFields ++ [("body", bodyToJVal b)] else baseFields
    | none => baseFields
  let respText := (F url opts).textRead.getD ""
  fieldsWithBody ++ [("response", (jsonParse respText).getD (JVal.str respText))]

/-! ## The claims -/

/-- Claim C1, counterexample: the persisted value `\x7b` (a lone opening
brace) is malformed JSON; the load of line 117 has no exception handler,
so `JSON.parse` throws (modelled by `none`) instead of producing an empty
sequence — refuting "returns an empty sequence ... and never raises". -/
theorem c1_load_counterexample : load117 (some "\x7b") = none := by rfl

/-- Claim C1 (amended): the initialization load returns the empty
sequence when the key is absent or holds the empty string, and returns
the parsed sequence for every value the script itself persists; but on a
malformed stored value `JSON.parse` raises instead of returning an empty
sequence (the claim's "never raises" clause fails, see the
counterexample). -/
theorem c1_load_amended :
    load117 none = some (JVal.arr [])
    ∧ load117 (some "") = some (JVal.arr [])
    ∧ (∀ l : List LogEntry,
        load117 (some (entriesJson l)) = some (JVal.arr (l.map entryToJVal)))
    ∧ loadEntries none = some [] := by
  refine ⟨by rfl, by rfl, ?_, by rfl⟩
  intro l
  unfold load117
  rw [show jsOr (some (entriesJson l)) "[]" = entriesJson l from by
    simp [jsOr, entriesJson_ne_empty l]]
  exact jsonParse_print (JVal.arr (l.map entryToJVal))

/-- Sample state holding one captured entry, for the clear-button
counterexample. -/
def c2State : DevBoxState :=
  { freshState with
    logEntries := [⟨"[12:00:00] [PAGE]", JVal.obj []⟩]
    sidebar := ["[12:00:00] [PAGE]"]
    storage := some (entriesJson [⟨"[12:00:00] [PAGE]", JVal.obj []⟩]) }

/-- Claim C2, counterexample: the Clear Logs button handler (lines
107-111) removes the key and empties both panes but does not reset the
in-memory `logEntries` array — one entry remains in memory, refuting
"every clear operation ... empties the in-memory log sequence". -/
theorem c2_clear_counterexample :
    (clearBtnOnClick c2State).logEntries ≠ [] ∧ (clearBtnOnClick c2State).storage = none := by
  exact ⟨by simp [clearBtnOnClick, c2State], rfl⟩

/-- Claim C2 (amended): `DevBox.clear` empties the in-memory sequence,
removes the persisted key and empties both panes; the Clear Logs button
handler removes the key and empties both panes but leaves the in-memory
sequence unchanged. -/
theorem c2_clear_amended (s : DevBoxState) :
    (devBoxClear s).logEntries = []
    ∧ (devBoxClear s).storage = none
    ∧ (devBoxClear s).sidebar = []
    ∧ (devBoxClear s).mainView = ""
    ∧ (clearBtnOnClick s).storage = none
    ∧ (clearBtnOnClick s).sidebar = []
    ∧ (clearBtnOnClick s).mainView = ""
    ∧ (clearBtnOnClick s).logEntries = s.logEntries := by
  exact ⟨rfl, rfl, rfl, rfl, rfl, rfl, rfl, rfl⟩

/-- Claim C3: while `stopSubmit` holds and the target is a form, the
submit listener prevents the default action and appends exactly one
entry titled `[FORM SUBMIT] <action-or-pathname>` whose payload is the
flat field mapping with last-field-wins semantics; with `stopSubmit`
false, or a non-form target, the state is unchanged and the default
action is not prevented. -/
theorem c3_submit (ts pathname : String) (s : DevBoxState) (form : FormTarget) :
    (submitListener ts (some form) pathname { s with stopSubmit := true }).2 = true
    ∧ (submitListener ts (some form) pathname { s with stopSubmit := true }).1.logEntries
        = s.logEntries ++ [⟨"[" ++ ts ++ "] " ++ ("[FORM SUBMIT] "
            ++ (if form.action = "" then pathname else form.action)),
          JVal.obj ((buildFormMap form.fields).map (fun p => (p.1, JVal.str p.2)))⟩]
    ∧ (∀ k, jsLookup (buildFormMap form.fields) k
        = (form.fields.reverse.find? (fun p => p.1 == k)).map (fun p => p.2))
    ∧ submitListener ts (some form) pathname { s with stopSubmit := false }
        = ({ s with stopSubmit := false }, false)
    ∧ submitListener ts none pathname s = (s, false) := by
  refine ⟨rfl, ?_, fun k => buildFormMap_lookup form.fields k, rfl, rfl⟩
  simp [submitListener, addLogEntry]

/-- Claim C4: the fetch wrapper returns the original response object
produced by the wrapped function, appends exactly one entry titled
`[<METHOD>] <url>` whose payload carries the method (defaulting to `GET`
when unspecified), the url, the parsed-or-raw response text, and — for a
present string body — the JSON-parsed body with the raw string retained
on parse failure; an absent or empty body contributes no body field. -/
theorem c4_fetch (F : String → Option FetchOpts → JsResponse) (ts url : String)
    (s : DevBoxState) :
    (∀ opts, (wrappedFetch F ts url opts s).2 = F url opts)
    ∧ (∀ opts, (wrappedFetch F ts url opts s).1.logEntries
        = s.logEntries ++ [⟨"[" ++ ts ++ "] "
            ++ ("[" ++ jsOr (opts.bind FetchOpts.method) "GET" ++ "] " ++ url),
          JVal.obj (fetchEntryFields F url opts)⟩])
    ∧ (∀ opts, (wrappedFetch F ts url opts s).1.logEntries.length = s.logEntries.length + 1)
    ∧ (∀ opts, (wrappedFetch F ts url opts s).1.storage
        = some (entriesJson (wrappedFetch F ts url opts s).1.logEntries))
    ∧ jsOr ((none : Option FetchOpts).bind FetchOpts.method) "GET" = "GET"
    ∧ (∀ b, jsOr ((some (FetchOpts.mk none b)).bind FetchOpts.method) "GET" = "GET")
    ∧ (∀ opts, jsLookup (fetchEntryFields F url opts) "method"
        = some (JVal.str (jsOr (opts.bind FetchOpts.method) "GET")))
    ∧ (∀ opts, jsLookup (fetchEntryFields F url opts) "url" = some (JVal.str url))
    ∧ (∀ opts, jsLookup (fetchEntryFields F url opts) "response"
        = some ((jsonParse ((F url opts).textRead.getD "")).getD
            (JVal.str ((F url opts).textRead.getD ""))))
    ∧ (∀ mo sb,
        jsLookup (fetchEntryFields F url (some (FetchOpts.mk mo (some (BodyVal.str sb))))) "body"
          = if sb = "" then none else some ((jsonParse sb).getD (JVal.str sb)))
    ∧ (∀ mo, jsLookup (fetchEntryFields F url (some (FetchOpts.mk mo none))) "body" = none)
    ∧ jsLookup (fetchEntryFields F url none) "body" = none := by
  refine ⟨fun opts => rfl, fun opts => rfl, ?_, fun opts => rfl, rfl, fun b => rfl,
    ?_, ?_, ?_, ?_, ?_, ?_⟩
  · intro opts
    rw [show (wrappedFetch F ts url opts s).1.logEntries
        = s.logEntries ++ [⟨"[" ++ ts ++ "] "
            ++ ("[" ++ jsOr (opts.bind FetchOpts.method) "GET" ++ "] " ++ url),
          JVal.obj (fetchEntryFields F url opts)⟩] from rfl]
    simp
  · intro opts
    unfold fetchEntryFields
    cases hb : opts.bind FetchOpts.body with
    | none => simp [jsLookup]
    | some b =>
      cases ht : bodyTruthy b <;> simp [ht, jsLookup]
  · intro opts
    unfold fetchEntryFields
    cases hb : opts.bind FetchOpts.body with
    | none => simp [jsLookup]
    | some b =>
      cases ht : bodyTruthy b <;> simp [ht, jsLookup]
  · intro opts
    unfold fetchEntryFields
    cases hb : opts.bind FetchOpts.body with
    | none => simp [jsLookup]
    | some b =>
      cases ht : bodyTruthy b <;> simp [ht, jsLookup]
  · intro mo sb
    unfold fetchEntryFields
    by_cases hsb : sb = ""
    · subst hsb
      have ht : bodyTruthy (BodyVal.str "") = false := by simp [bodyTruthy]
      simp [ht, jsLookup]
    · have ht : bodyTruthy (BodyVal.str sb) = true := by simp [bodyTruthy, hsb]
      simp [ht, jsLookup, hsb, bodyToJVal]
  · intro mo
    unfold fetchEntryFields
    simp [jsLookup]
  · unfold fetchEntryFields
    simp [jsLookup]

/-- Claim C5: appending any batch of events from the cleared state and
then re-initialising from storage recovers exactly those entries: the
count matches and every payload round-trips through the serialisation
boundary unchanged. -/
theorem c5_roundtrip (s0 : DevBoxState) (L : List (String × String × JVal)) :
    loadEntries (List.foldl (fun s e => addLogEntry e.1 e.2.1 e.2.2 s) (devBoxClear s0) L).storage
      = some (List.foldl (fun s e => addLogEntry e.1 e.2.1 e.2.2 s) (devBoxClear s0) L).logEntries
    ∧ (List.foldl (fun s e => addLogEntry e.1 e.2.1 e.2.2 s) (devBoxClear s0) L).logEntries.length
      = L.length
    ∧ (List.foldl (fun s e => addLogEntry e.1 e.2.1 e.2.2 s) (devBoxClear s0) L).logEntries.map
        LogEntry.obj = L.map (fun e => e.2.2) := by
  have h0 : loadEntries (devBoxClear s0).storage = some (devBoxClear s0).logEntries := by rfl
  obtain ⟨h1, h2⟩ := foldl_addLog_inv L (devBoxClear s0) h0
  refine ⟨h1, ?_, ?_⟩
  · rw [h2]
    simp [devBoxClear]
  · rw [h2]
    simp [devBoxClear]

/-- Claim C6: along every sequence of control operations (open, close,
toggle, the tab click handler) from the initial state the visibility
flag and the panel's display state agree — the flag is true exactly when
the display is `"flex"` — and toggling twice restores the original
visibility with matching display. -/
theorem c6_panel (ops : List PanelOp) (s : DevBoxState) :
    panelConsistent (applyPanelOps ops freshState)
    ∧ (devBoxToggle (devBoxToggle s)).visible = s.visible
    ∧ panelConsistent (devBoxToggle (devBoxToggle s))
    ∧ (devBoxTabOnClick (devBoxTabOnClick s)).visible = s.visible
    ∧ panelConsistent (devBoxTabOnClick (devBoxTabOnClick s)) := by
  refine ⟨applyPanelOps_consistent ops freshState (by rfl), ?_,
    applyPanelOp_consistent (devBoxToggle s) PanelOp.doToggle, ?_,
    applyPanelOp_consistent (devBoxTabOnClick s) PanelOp.doTabClick⟩
  · simp [devBoxToggle]
  · simp [devBoxTabOnClick]

/-- Claim C7, counterexample: `toggle` is part of the public control
API, and calling it twice from the initial state does not leave the same
end state as calling it once — the visibility flag differs — refuting
"every operation of the public control API is idempotent in end state". -/
theorem c7_toggle_counterexample :
    devBoxToggle (devBoxToggle freshState) ≠ devBoxToggle freshState := by
  intro h
  have hv := congrArg DevBoxState.visible h
  simp [devBoxToggle, freshState] at hv

/-- Claim C7 (amended): `open`, `close`, `clear` and `setBlockRedirects`
are idempotent in end state, `isOpen` is a pure query, and `open` twice
leaves visibility true both times; `toggle` is not idempotent — it is an
involution, so two applications restore the original visibility and
re-match the display to it. -/
theorem c7_idempotence (s : DevBoxState) (val : JVal) :
    devBoxOpen (devBoxOpen s) = devBoxOpen s
    ∧ (devBoxOpen s).visible = true
    ∧ (devBoxOpen (devBoxOpen s)).visible = true
    ∧ devBoxClose (devBoxClose s) = devBoxClose s
    ∧ devBoxClear (devBoxClear s) = devBoxClear s
    ∧ devBoxSetBlockRedirects val (devBoxSetBlockRedirects val s)
        = devBoxSetBlockRedirects val s
    ∧ devBoxIsOpen s = s.visible
    ∧ (devBoxToggle (devBoxToggle s)).visible = s.visible
    ∧ (devBoxToggle (devBoxToggle s)).display = (if s.visible then "flex" else "none") := by
  refine ⟨rfl, rfl, rfl, rfl, rfl, rfl, rfl, ?_, ?_⟩
  · simp [devBoxToggle]
  · simp [devBoxToggle]

/-- Claim C8, counterexample: the document cookie string `a=100%` — a
legal cookie whose value ends in a lone percent sign — makes the real
capture throw `URIError` inside `decodeURIComponent` (line 205), so no
mapping is produced at all, refuting "for every document cookie string
... produces a flat mapping". -/
theorem c8_cookies_counterexample : parseCookies "a=100%" = none := by rfl

/-- Claim C8 (amended): whenever the cookie capture completes without a
`URIError` — every well-formed fragment's value percent-decodes — it
produces a flat mapping whose lookup at any key is the decoded value of
the last well-formed fragment (split at `=`, key trimmed, fragments
missing a key or a value skipped) carrying that trimmed key — last
write wins; a fragment value with a malformed or invalid percent escape
makes `decodeURIComponent` throw and no mapping is produced (see the
counterexample). -/
theorem c8_cookies_amended (cookie k : String) (m : List (String × String))
    (h : parseCookies cookie = some m) :
    jsLookup m k
      = ((cookiePairs cookie).reverse.find? (fun p => p.1 == k)).map (fun p => p.2) := by
  have hm := parseCookies_sound (jsSplit ';' cookie) [] m h
  rw [hm, show (jsSplit ';' cookie).filterMap cookiePair = cookiePairs cookie from rfl,
    lookup_foldl_set]
  cases hf : (cookiePairs cookie).reverse.find? (fun p => p.1 == k) <;> simp [jsLookup]

/-- Witness for claim C8 at a concrete cookie string: the first value is
a percent escape, the second fragment carries a leading space that the
key trim removes. -/
theorem c8_cookies_amended_witness :
    parseCookies "sid=%41; user=bob" = some [("sid", "A"), ("user", "bob")]
    ∧ jsLookup [("sid", "A"), ("user", "bob")] "user"
      = ((cookiePairs "sid=%41; user=bob").reverse.find? (fun p => p.1 == "user")).map
          (fun p => p.2) :=
  ⟨rfl, c8_cookies_amended "sid=%41; user=bob" "user" [("sid", "A"), ("user", "bob")] rfl⟩

/-- A successful static capture: the cookie payload decodes to `m` and
the three entries are appended in order. -/
theorem staticCaptures_ok (ts1 ts2 ts3 : String) (env : PageEnv) (s : DevBoxState)
    (m : List (String × String)) (hm : parseCookies env.cookie = some m) :
    staticCaptures ts1 ts2 ts3 env s
      = Except.ok (addLogEntry ts3 "[PAGE]" (JVal.obj [("pathname", JVal.str env.pathname)])
          (addLogEntry ts2 "[COOKIES]" (JVal.obj (m.map (fun p => (p.1, JVal.str p.2))))
            (addLogEntry ts1 "[SESSION]" (jsOrEmptyObj env.session) s))) := by
  simp only [staticCaptures, hm]

/-- A static capture interrupted by `URIError`: only the `[SESSION]`
entry was appended. -/
theorem staticCaptures_err (ts1 ts2 ts3 : String) (env : PageEnv) (s : DevBoxState)
    (hm : parseCookies env.cookie = none) :
    staticCaptures ts1 ts2 ts3 env s
      = Except.error (addLogEntry ts1 "[SESSION]" (jsOrEmptyObj env.session) s) := by
  simp only [staticCaptures, hm]

/-- The storage invariant holds right after any append. -/
theorem loadEntries_addLog (ts title : String) (obj : JVal) (s : DevBoxState) :
    loadEntries (addLogEntry ts title obj s).storage
      = some (addLogEntry ts title obj s).logEntries := by
  rw [show (addLogEntry ts title obj s).storage
      = some (entriesJson (addLogEntry ts title obj s).logEntries) from rfl]
  exact loadEntries_entriesJson _

/-- Environment for the unread-globals observation: the query-parameter,
posted-form-data and request-path globals are all present. -/
def envBug : PageEnv :=
  { session := none
    getParams := some (JVal.obj [("q", JVal.str "1")])
    postParams := some (JVal.obj [("f", JVal.str "2")])
    file := some "/page.php"
    cookie := ""
    pathname := "/page.php" }

/-- Claim C9 (code bug): initialization reads only the session global.
With the query-parameter, posted-form-data and request-path globals
present, the static capture logs exactly `[SESSION]`, `[COOKIES]` and
`[PAGE]` — no `[GET]`, `[POST]` or `[FILE]` entry — and its outcome is
identical to the outcome with those globals absent, although the
README documents them as appearing as additional log entries. -/
theorem c9_globals_unread :
    staticCaptures "t1" "t2" "t3" envBug freshState
      = staticCaptures "t1" "t2" "t3"
          { envBug with getParams := none, postParams := none, file := none } freshState
    ∧ (∃ s, staticCaptures "t1" "t2" "t3" envBug freshState = Except.ok s
        ∧ s.logEntries.map LogEntry.title = ["[t1] [SESSION]", "[t2] [COOKIES]", "[t3] [PAGE]"]
        ∧ s.storage = some (entriesJson s.logEntries))
    ∧ (∀ (ses gp pp gp' pp' : Option JVal) (fl fl' : Option String)
        (cook path ts1 ts2 ts3 : String) (s : DevBoxState),
        staticCaptures ts1 ts2 ts3 ⟨ses, gp, pp, fl, cook, path⟩ s
          = staticCaptures ts1 ts2 ts3 ⟨ses, gp', pp', fl', cook, path⟩ s) := by
  refine ⟨rfl, ⟨_, rfl, ?_, rfl⟩,
    fun ses gp pp gp' pp' fl fl' cook path ts1 ts2 ts3 s => rfl⟩
  simp [addLogEntry, freshState]

/-- Claim C10 (amended): an initialization whose stored value loads as
`l` and whose cookie string percent-decodes appends exactly three static
entries — timestamp-prefixed `[SESSION]`, `[COOKIES]`, `[PAGE]` — to the
in-memory sequence and the persisted store, growing both by three; when
the cookie string contains a malformed or invalid percent escape,
`decodeURIComponent` throws `URIError` during the `[COOKIES]` capture
and initialization aborts having appended and persisted only the
`[SESSION]` entry. -/
theorem c10_static_growth (ts1 ts2 ts3 : String) (env : PageEnv) (stored : Option String)
    (l : List LogEntry) (h : loadEntries stored = some l) :
    (∀ m, parseCookies env.cookie = some m →
      ∃ s, initDevBox ts1 ts2 ts3 env stored = some (Except.ok s)
        ∧ s.logEntries = l
            ++ [⟨"[" ++ ts1 ++ "] " ++ "[SESSION]", jsOrEmptyObj env.session⟩,
                ⟨"[" ++ ts2 ++ "] " ++ "[COOKIES]",
                  JVal.obj (m.map (fun p => (p.1, JVal.str p.2)))⟩,
                ⟨"[" ++ ts3 ++ "] " ++ "[PAGE]",
                  JVal.obj [("pathname", JVal.str env.pathname)]⟩]
        ∧ s.logEntries.length = l.length + 3
        ∧ s.storage = some (entriesJson s.logEntries)
        ∧ loadEntries s.storage = some s.logEntries)
    ∧ (parseCookies env.cookie = none →
      ∃ s, initDevBox ts1 ts2 ts3 env stored = some (Except.error s)
        ∧ s.logEntries = l ++ [⟨"[" ++ ts1 ++ "] " ++ "[SESSION]", jsOrEmptyObj env.session⟩]
        ∧ s.logEntries.length = l.length + 1
        ∧ s.storage = some (entriesJson s.logEntries)
        ∧ loadEntries s.storage = some s.logEntries) := by
  constructor
  · intro m hm
    simp only [initDevBox, h]
    rw [staticCaptures_ok ts1 ts2 ts3 env _ m hm]
    refine ⟨_, rfl, ?_, ?_, rfl, loadEntries_addLog _ _ _ _⟩
    · simp [addLogEntry]
    · simp [addLogEntry]
  · intro hm
    simp only [initDevBox, h]
    rw [staticCaptures_err ts1 ts2 ts3 env _ hm]
    refine ⟨_, rfl, ?_, ?_, rfl, loadEntries_addLog _ _ _ _⟩
    · simp [addLogEntry]
    · simp [addLogEntry]

/-- Environment whose cookie string ends in a lone percent sign. -/
def envErr : PageEnv :=
  { session := none
    getParams := none
    postParams := none
    file := none
    cookie := "a=100%"
    pathname := "/p" }

/-- Claim C10, counterexample: with the document cookie `a=100%` the
cookie payload construction throws `URIError` after the `[SESSION]`
append, so a fresh initialization ends in the error state holding one
entry — the persisted sequence grows by one, not three, refuting
"appends exactly three new static entries ... per page load". -/
theorem c10_growth_counterexample :
    (∃ s, initDevBox "t1" "t2" "t3" envErr none = some (Except.error s)
      ∧ s.logEntries.map LogEntry.title = ["[t1] [SESSION]"]
      ∧ s.logEntries.length = 1
      ∧ s.storage = some (entriesJson s.logEntries))
    ∧ (∀ s, initDevBox "t1" "t2" "t3" envErr none ≠ some (Except.ok s)) := by
  constructor
  · exact ⟨_, rfl, rfl, rfl, rfl⟩
  · intro s h
    rw [show initDevBox "t1" "t2" "t3" envErr none
        = some (Except.error (addLogEntry "t1" "[SESSION]" (jsOrEmptyObj envErr.session)
          { visible := false, blockRedirects := false, stopSubmit := true, display := "none",
            sidebar := [], mainView := "", logEntries := [], storage := none })) from rfl] at h
    simp at h

/-- Plain page environment for the fresh-initialization witness. -/
def envPlain : PageEnv :=
  { session := none
    getParams := none
    postParams := none
    file := none
    cookie := "a=1"
    pathname := "/home" }

/-- Witness for claim C10 at a concrete input: an absent stored value
loads as the empty sequence, the cookie string `a=1` decodes, and a
fresh initialization then holds exactly the three static entries. -/
theorem c10_static_growth_witness :
    loadEntries none = some ([] : List LogEntry)
    ∧ parseCookies envPlain.cookie = some [("a", "1")]
    ∧ ∃ s, initDevBox "t1" "t2" "t3" envPlain none = some (Except.ok s)
      ∧ s.logEntries = []
          ++ [⟨"[" ++ "t1" ++ "] " ++ "[SESSION]", jsOrEmptyObj envPlain.session⟩,
              ⟨"[" ++ "t2" ++ "] " ++ "[COOKIES]",
                JVal.obj (([("a", "1")] : List (String × String)).map
                  (fun p => (p.1, JVal.str p.2)))⟩,
              ⟨"[" ++ "t3" ++ "] " ++ "[PAGE]",
                JVal.obj [("pathname", JVal.str envPlain.pathname)]⟩]
      ∧ s.logEntries.length = List.length ([] : List LogEntry) + 3
      ∧ s.storage = some (entriesJson s.logEntries)
      ∧ loadEntries s.storage = some s.logEntries :=
  ⟨rfl, rfl, (c10_static_growth "t1" "t2" "t3" envPlain none [] rfl).1 [("a", "1")] rfl⟩
